import Mathlib

/-!
Verification of the CSO secret-path validator and the secret value packer.

Go strings are modelled as `List Char`; byte strings as `List Nat` with
entries below 256.  Fallible code returns `Except`/`Option`; list indexing
performed by the Go code (`parts[i]`) is modelled with `List.get?`, an
out-of-range access (a Go panic) surfacing as `none` of the whole
computation.
-/

namespace Harp

/-- One character of the printable-ASCII range, as matched by the
`is.PrintableASCII` rule (regexp over 0x20..0x7E). -/
def printableChar (c : Char) : Bool :=
  (0x20 ≤ c.toNat) && (c.toNat ≤ 0x7E)

/-- Error produced by `validation.Validate(v, validation.Required, is.PrintableASCII)`. -/
inductive RawErr where
  | blank
  | nonPrintable
  deriving DecidableEq, Repr

/-- `validation.Validate(v, validation.Required, is.PrintableASCII)`:
`Required` rejects the empty string, then the printable-ASCII rule rejects
any character outside 0x20..0x7E. -/
def requiredPrintable (s : List Char) : Except RawErr Unit :=
  if s = [] then .error .blank
  else if s.all printableChar then .ok () else .error .nonPrintable

/-- Modelled from the spec: the repository's `Clean` normalization, whose
definition is not part of the provided sources, "collapses redundant
separators and trims before validation and before segment splitting".  It
drops the empty fields produced by repeated, leading or trailing `/`
separators and rejoins the remaining segments. -/
def Clean (s : List Char) : List Char :=
  List.intercalate ['/'] ((s.splitOn '/').filter (fun seg => seg ≠ []))

theorem sep_not_mem_splitOn (sep : Char) (xs : List Char) :
    ∀ seg ∈ xs.splitOn sep, sep ∉ seg := by
  induction xs with
  | nil =>
    intro seg h
    simp only [List.splitOn_nil, List.mem_singleton] at h
    simp [h]
  | cons a xs ih =>
    intro seg h
    simp only [List.splitOn, List.splitOnP_cons] at h ih
    by_cases ha : a = sep
    · rw [if_pos (by simpa using ha)] at h
      rcases List.mem_cons.mp h with rfl | h1
      · simp
      · exact ih seg h1
    · rw [if_neg (by simpa using ha)] at h
      cases hsp : xs.splitOnP (· == sep) with
      | nil => exact absurd hsp (List.splitOnP_ne_nil _ xs)
      | cons b t =>
        rw [hsp] at h
        simp only [List.modifyHead] at h
        rcases List.mem_cons.mp h with rfl | h1
        · intro hc
          rcases List.mem_cons.mp hc with h2 | h2
          · exact ha h2.symm
          · exact ih b (hsp ▸ List.mem_cons_self b t) h2
        · exact ih seg (hsp ▸ List.mem_cons_of_mem b h1)

theorem mem_splitOn_iff (sep c : Char) (xs : List Char) (hc : c ≠ sep) :
    c ∈ xs ↔ ∃ seg ∈ xs.splitOn sep, c ∈ seg := by
  induction xs with
  | nil => simp
  | cons a xs ih =>
    simp only [List.splitOn, List.splitOnP_cons] at ih ⊢
    by_cases ha : a = sep
    · rw [if_pos (by simpa using ha)]
      constructor
      · intro h
        rcases List.mem_cons.mp h with rfl | h1
        · exact absurd ha hc
        · rcases ih.mp h1 with ⟨seg, hseg, hcs⟩
          exact ⟨seg, List.mem_cons_of_mem [] hseg, hcs⟩
      · rintro ⟨seg, hseg, hcs⟩
        rcases List.mem_cons.mp hseg with rfl | h1
        · simp at hcs
        · exact List.mem_cons_of_mem a (ih.mpr ⟨seg, h1, hcs⟩)
    · rw [if_neg (by simpa using ha)]
      cases hsp : xs.splitOnP (· == sep) with
      | nil => exact absurd hsp (List.splitOnP_ne_nil _ xs)
      | cons b t =>
        rw [hsp] at ih
        simp only [List.modifyHead]
        constructor
        · intro h
          rcases List.mem_cons.mp h with rfl | h1
          · exact ⟨c :: b, List.mem_cons_self _ _, List.mem_cons_self c b⟩
          · rcases ih.mp h1 with ⟨seg, hseg, hcs⟩
            rcases List.mem_cons.mp hseg with rfl | h2
            · exact ⟨a :: seg, List.mem_cons_self _ _, List.mem_cons_of_mem a hcs⟩
            · exact ⟨seg, List.mem_cons_of_mem _ h2, hcs⟩
        · rintro ⟨seg, hseg, hcs⟩
          rcases List.mem_cons.mp hseg with rfl | h2
          · rcases List.mem_cons.mp hcs with rfl | h3
            · exact List.mem_cons_self c xs
            · exact List.mem_cons_of_mem a (ih.mpr ⟨b, List.mem_cons_self b t, h3⟩)
          · exact List.mem_cons_of_mem a (ih.mpr ⟨seg, List.mem_cons_of_mem b h2, hcs⟩)

theorem mem_intercalate_slash (L : List (List Char)) (c : Char) :
    c ∈ List.intercalate ['/'] L → (∃ s ∈ L, c ∈ s) ∨ c = '/' := by
  induction L with
  | nil => intro h; simp [List.intercalate] at h
  | cons a rest ih =>
    intro h
    cases rest with
    | nil =>
      simp only [List.intercalate, List.intersperse_singleton, List.flatten] at h
      simp at h
      exact Or.inl ⟨a, by simp, h⟩
    | cons b t =>
      simp only [List.intercalate, List.intersperse_cons_cons, List.flatten] at h ih
      rcases List.mem_append.mp h with h1 | h1
      · exact Or.inl ⟨a, by simp, h1⟩
      · rcases List.mem_append.mp h1 with h2 | h2
        · simp at h2
          exact Or.inr h2
        · rcases ih h2 with ⟨s, hs, hcs⟩ | h3
          · exact Or.inl ⟨s, List.mem_cons_of_mem a hs, hcs⟩
          · exact Or.inr h3

theorem mem_intercalate_slash_of_mem (L : List (List Char)) (c : Char)
    (s : List Char) (hs : s ∈ L) (hcs : c ∈ s) :
    c ∈ List.intercalate ['/'] L := by
  induction L with
  | nil => simp at hs
  | cons a rest ih =>
    cases rest with
    | nil =>
      simp only [List.mem_singleton] at hs
      simp only [List.intercalate, List.intersperse_singleton]
      simp [hs ▸ hcs]
    | cons b t =>
      simp only [List.intercalate, List.intersperse_cons_cons, List.flatten] at ih ⊢
      rcases List.mem_cons.mp hs with rfl | h1
      · exact List.mem_append.mpr (Or.inl hcs)
      · exact List.mem_append.mpr (Or.inr (List.mem_append.mpr (Or.inr (ih h1))))

theorem intercalate_slash_ne_nil (L : List (List Char)) (hne : L ≠ [])
    (hseg : ∀ s ∈ L, s ≠ []) : List.intercalate ['/'] L ≠ [] := by
  cases L with
  | nil => exact absurd rfl hne
  | cons a rest =>
    cases rest with
    | nil =>
      have := hseg a (by simp)
      simpa [List.intercalate, List.intersperse_singleton] using this
    | cons b t =>
      simp only [List.intercalate, List.intersperse_cons_cons, List.flatten]
      intro h
      rcases List.append_eq_nil.mp h with ⟨-, h2⟩
      simp at h2

/-- The filtered segment list of a raw path. -/
def cleanSegs (s : List Char) : List (List Char) :=
  (s.splitOn '/').filter (fun seg => seg ≠ [])

theorem clean_splitOn (s : List Char) :
    (Clean s).splitOn '/' = if cleanSegs s = [] then [[]] else cleanSegs s := by
  by_cases h : cleanSegs s = []
  · rw [if_pos h]
    show (List.intercalate ['/'] (cleanSegs s)).splitOn '/' = [[]]
    rw [h]
    simp [List.intercalate]
  · rw [if_neg h]
    refine List.splitOn_intercalate _ '/' ?_ h
    intro l hl
    exact sep_not_mem_splitOn '/' s l (List.mem_of_mem_filter hl)

theorem clean_idem (s : List Char) : Clean (Clean s) = Clean s := by
  by_cases h : cleanSegs s = []
  · have h1 : Clean s = [] := by
      show List.intercalate ['/'] (cleanSegs s) = []
      rw [h]; simp [List.intercalate]
    rw [h1]
    simp [Clean, List.intercalate]
  · show List.intercalate ['/'] ((List.splitOn '/' (Clean s)).filter _) = Clean s
    rw [show List.splitOn '/' (Clean s) = (Clean s).splitOn '/' from rfl, clean_splitOn s,
      if_neg h]
    have : (cleanSegs s).filter (fun seg => seg ≠ []) = cleanSegs s := by
      unfold cleanSegs
      rw [List.filter_filter]
      simp
    rw [Clean]
    show List.intercalate ['/'] ((cleanSegs s).filter _) = _
    rw [this]
    rfl

/-! ### Semantic versions (`github.com/blang/semver/v4`, `Parse`/`Make`) -/

/-- A decimal digit, the `numbers` character set of the semver library. -/
def isDigitC (c : Char) : Bool :=
  (48 ≤ c.toNat) && (c.toNat ≤ 57)

/-- The `alphas` character set of the semver library: ASCII letters and `-`. -/
def isAlphaC (c : Char) : Bool :=
  ((97 ≤ c.toNat) && (c.toNat ≤ 122)) || ((65 ≤ c.toNat) && (c.toNat ≤ 90)) || (c.toNat == 45)

/-- The `alphanum` character set of the semver library. -/
def isAlphanumC (c : Char) : Bool :=
  isAlphaC c || isDigitC c

/-- `containsOnly(s, set)`: every character belongs to the set. -/
def containsOnly (s : List Char) (set : Char → Bool) : Bool :=
  s.all set

/-- `hasLeadingZeroes(s)`: more than one character and the first is `0`. -/
def hasLeadingZeroes (s : List Char) : Bool :=
  decide (1 < s.length) && (s.headD ' ' == '0')

/-- Numeric value of a digit string. -/
def digitsVal (s : List Char) : Nat :=
  s.foldl (fun a c => a * 10 + (c.toNat - 48)) 0

/-- Split at the first occurrence of `sep`, Go `strings.IndexRune` plus
slicing: `none` when `sep` does not occur. -/
def splitFirst (sep : Char) : List Char → Option (List Char × List Char)
  | [] => none
  | c :: rest =>
    if c = sep then some ([], rest)
    else (splitFirst sep rest).map (fun p => (c :: p.1, p.2))

/-- Go `strings.SplitN(s, ".", 3)`: at most three fields, the last one
keeping any further separators. -/
def splitN3Dots (s : List Char) : List (List Char) :=
  match splitFirst '.' s with
  | none => [s]
  | some (a, rest) =>
    match splitFirst '.' rest with
    | none => [a, rest]
    | some (b, rest2) => [a, b, rest2]

/-- Errors of `semver.Parse` (one constructor per distinct failure). -/
inductive SemErr where
  | empty
  | notThreeParts
  | numInvalidChar (s : List Char)
  | numLeadingZero (s : List Char)
  | numParse (s : List Char)
  | preEmpty
  | preLeadingZero (s : List Char)
  | preParse (s : List Char)
  | preInvalidChar (s : List Char)
  | buildEmpty
  | buildInvalidChar (s : List Char)
  deriving DecidableEq, Repr

/-- Checks applied to the major, minor and patch components:
`containsOnly(numbers)`, then `hasLeadingZeroes`, then
`strconv.ParseUint(s, 10, 64)` (which rejects the empty string and values
of 64 bits or more). -/
def semverNum (s : List Char) : Except SemErr Unit :=
  if ¬ containsOnly s isDigitC then .error (.numInvalidChar s)
  else if hasLeadingZeroes s then .error (.numLeadingZero s)
  else if s = [] then .error (.numParse s)
  else if 2 ^ 64 ≤ digitsVal s then .error (.numParse s)
  else .ok ()

/-- `semver.NewPRVersion`: one dot-separated pre-release identifier. -/
def semverPRVersion (s : List Char) : Except SemErr Unit :=
  if s = [] then .error .preEmpty
  else if containsOnly s isDigitC then
    if hasLeadingZeroes s then .error (.preLeadingZero s)
    else if 2 ^ 64 ≤ digitsVal s then .error (.preParse s)
    else .ok ()
  else if containsOnly s isAlphanumC then .ok ()
  else .error (.preInvalidChar s)

/-- One build-metadata identifier: non-empty and alphanumeric. -/
def semverBuildId (s : List Char) : Except SemErr Unit :=
  if s = [] then .error .buildEmpty
  else if containsOnly s isAlphanumC then .ok ()
  else .error (.buildInvalidChar s)

/-- First-error fold over a list of checks (the Go `for` loops that return
on the first failing identifier). -/
def checkEach (f : List Char → Except SemErr Unit) : List (List Char) → Except SemErr Unit
  | [] => .ok ()
  | x :: xs =>
    match f x with
    | .error e => .error e
    | .ok _ => checkEach f xs

/-- `semver.Make` = `semver.Parse`: `MAJOR.MINOR.PATCH` with optional
`-prerelease` and `+build` suffixes on the third component. -/
def semverMake (s : List Char) : Except SemErr Unit :=
  if s = [] then .error .empty
  else
    match splitN3Dots s with
    | [maj, minor, rest] =>
      match semverNum maj with
      | .error e => .error e
      | .ok _ =>
        match semverNum minor with
        | .error e => .error e
        | .ok _ =>
          let pb := match splitFirst '+' rest with
            | none => (rest, ([] : List (List Char)))
            | some (p, bld) => (p, bld.splitOn '.')
          let pp := match splitFirst '-' pb.1 with
            | none => (pb.1, ([] : List (List Char)))
            | some (p, pre) => (p, pre.splitOn '.')
          match semverNum pp.1 with
          | .error e => .error e
          | .ok _ =>
            match checkEach semverPRVersion pp.2 with
            | .error e => .error e
            | .ok _ => checkEach semverBuildId pb.2
    | _ => .error .notThreeParts

/-- Go `unicode.IsSpace` restricted to the code points the validator can
meet (the full Latin-1 white space plus the Unicode space separators). -/
def isSpaceGo (c : Char) : Bool :=
  let n := c.toNat
  (9 ≤ n && n ≤ 13) || n == 32 || n == 0x85 || n == 0xA0 ||
  n == 0x1680 || (0x2000 ≤ n && n ≤ 0x200A) || n == 0x2028 || n == 0x2029 ||
  n == 0x202F || n == 0x205F || n == 0x3000

/-- ASCII lower-casing of one character. -/
def lowerChar (c : Char) : Char :=
  if 65 ≤ c.toNat ∧ c.toNat ≤ 90 then Char.ofNat (c.toNat + 32) else c

/-- Go `strings.ToLower` restricted to ASCII case mapping (the only case
mapping exercised by printable-ASCII secret paths). -/
def toLowerGo (s : List Char) : List Char :=
  s.map lowerChar

/-- Go `strings.TrimSpace`. -/
def trimSpaceGo (s : List Char) : List Char :=
  ((s.dropWhile isSpaceGo).reverse.dropWhile isSpaceGo).reverse

/-- Go `strings.TrimPrefix(s, "v")`: drop one leading `v` when present. -/
def trimLeadingV (s : List Char) : List Char :=
  match s with
  | 'v' :: rest => rest
  | _ => s

/-- `validateSemVer`: lower-case, trim surrounding white space, strip one
leading `v`, then `semver.Make`. -/
def validateSemVer (version : List Char) : Except SemErr Unit :=
  semverMake (trimLeadingV (trimSpaceGo (toLowerGo version)))

/-! ### The ring validators and `Validate` -/

/-- Every distinct error produced by `Validate` and the ring validators,
one constructor per `fmt.Errorf` site, carrying the interpolated segments. -/
inductive VErr where
  | pathSyntax (e : RawErr)
  | tooFewParts
  | invalidRing (ring : List Char)
  | metaCount
  | metaAccount (v : List Char) (e : RawErr)
  | infraCount
  | infraProvider (p : List Char)
  | infraAccount (a : List Char) (e : RawErr)
  | infraRegion (r a p : List Char)
  | platformCount
  | platformQuality (q : List Char)
  | platformName (n : List Char) (e : RawErr)
  | platformRegion (r : List Char)
  | platformService (s : List Char) (e : RawErr)
  | productCount
  | productName (n : List Char) (e : RawErr)
  | productVersion (n v : List Char) (e : SemErr)
  | appCount
  | appQuality (q : List Char)
  | appPlatformName (n : List Char) (e : RawErr)
  | appProductName (n : List Char) (e : RawErr)
  | appProductVersion (n v : List Char) (e : SemErr)
  | appComponent (c v n : List Char) (e : RawErr)
  | artifactCount
  | artifactType (t : List Char) (e : RawErr)
  deriving DecidableEq, Repr

/-- The `cloudProviderRegions` table, verbatim from the source. -/
def cloudProviderRegions : List (List Char × List (List Char)) :=
  [("aws".data,
    ["global", "us-east-1", "us-east-2", "us-west-1", "us-west-2", "ap-east-1",
     "ap-south-1", "ap-northeast-3", "ap-northeast-2", "ap-southeast-1",
     "ap-southeast-2", "ap-northeast-1", "ca-central-1", "cn-north-1",
     "cn-northwest-1", "eu-central-1", "eu-west-1", "eu-west-2", "eu-west-3",
     "eu-north-1", "me-south-1", "sa-east-1"].map String.data),
   ("aws-us-gov".data,
    ["us-gov-east-1", "us-gov-west-1"].map String.data),
   ("gcp".data,
    ["global", "asia-east1", "asia-east2", "asia-northeast1", "asia-northeast2",
     "asia-south1", "asia-southeast1", "australia-southeast1", "europe-north1",
     "europe-west1", "europe-west2", "europe-west3", "europe-west4",
     "europe-west6", "northamerica-northeast1", "southamerica-east1",
     "us-central1", "us-east1", "us-east4", "us-west1", "us-west2"].map String.data),
   ("azure".data,
    ["global", "eastasia", "southeastasia", "centralus", "eastus", "eastus2",
     "westus", "northcentralus", "southcentralus", "northeurope", "westeurope",
     "japanwest", "japaneast", "brazilsouth", "australiaeast",
     "australiasoutheast", "southindia", "centralindia", "westindia",
     "canadacentral", "canadaeast", "uksouth", "ukwest", "westcentralus",
     "westus2", "koreacentral", "koreasouth", "francecentral", "francesouth",
     "australiacentral", "australiacentral2", "uaecentral", "uaenorth",
     "southafricanorth", "southafricawest", "switzerlandnorth",
     "switzerlandwest", "germanynorth", "germanywestcentral", "norwaywest",
     "norwayeast", "brazilsoutheast"].map String.data),
   ("azure-us-gov".data,
    ["usgovvirginia", "usgoviowa", "usgovarizona", "usgovtexas"].map String.data)]

/-- Map access `cloudProviderRegions[provider]`. -/
def lookupRegions (p : List Char) : Option (List (List Char)) :=
  (cloudProviderRegions.find? (fun e => e.1 == p)).map (fun e => e.2)

/-- `platformQualityLevels`, verbatim from the source. -/
def platformQualityLevels : List (List Char) :=
  ["production", "staging", "qa", "dev"].map String.data

/-- Outcome of one validator: `none` models a Go panic (out-of-range
index), `some (.error e)` a returned error, `some (.ok ())` success. -/
abbrev VOut := Option (Except VErr Unit)

/-- `validateMeta`. -/
def validateMeta (parts : List (List Char)) : VOut :=
  if parts.length < 2 then some (.error .metaCount)
  else
    match parts.get? 0 with
    | none => none
    | some p0 =>
      match requiredPrintable p0 with
      | .error e => some (.error (.metaAccount p0 e))
      | .ok _ => some (.ok ())

/-- `validateInfra`. -/
def validateInfra (parts : List (List Char)) : VOut :=
  if parts.length < 4 then some (.error .infraCount)
  else
    match parts.get? 0 with
    | none => none
    | some p0 =>
      match lookupRegions p0 with
      | none => some (.error (.infraProvider p0))
      | some r =>
        match parts.get? 1 with
        | none => none
        | some p1 =>
          match requiredPrintable p1 with
          | .error e => some (.error (.infraAccount p1 e))
          | .ok _ =>
            match parts.get? 2 with
            | none => none
            | some p2 =>
              if r.contains p2 then some (.ok ())
              else some (.error (.infraRegion p2 p1 p0))

/-- `validatePlatform`.  The region test ranges over every provider's
region list (the `for … range cloudProviderRegions` loop). -/
def validatePlatform (parts : List (List Char)) : VOut :=
  if parts.length < 5 then some (.error .platformCount)
  else
    match parts.get? 0 with
    | none => none
    | some p0 =>
      if ¬ platformQualityLevels.contains p0 then some (.error (.platformQuality p0))
      else
        match parts.get? 1 with
        | none => none
        | some p1 =>
          match requiredPrintable p1 with
          | .error e => some (.error (.platformName p1 e))
          | .ok _ =>
            match parts.get? 2 with
            | none => none
            | some p2 =>
              if ¬ cloudProviderRegions.any (fun e => e.2.contains p2) then
                some (.error (.platformRegion p2))
              else
                match parts.get? 3 with
                | none => none
                | some p3 =>
                  match requiredPrintable p3 with
                  | .error e => some (.error (.platformService p1 e))
                  | .ok _ => some (.ok ())

/-- `validateProduct`. -/
def validateProduct (parts : List (List Char)) : VOut :=
  if parts.length < 3 then some (.error .productCount)
  else
    match parts.get? 0 with
    | none => none
    | some p0 =>
      match requiredPrintable p0 with
      | .error e => some (.error (.productName p0 e))
      | .ok _ =>
        match parts.get? 1 with
        | none => none
        | some p1 =>
          match validateSemVer p1 with
          | .error e => some (.error (.productVersion p0 p1 e))
          | .ok _ => some (.ok ())

/-- `validateApplication`. -/
def validateApplication (parts : List (List Char)) : VOut :=
  if parts.length < 6 then some (.error .appCount)
  else
    match parts.get? 0 with
    | none => none
    | some p0 =>
      if ¬ platformQualityLevels.contains p0 then some (.error (.appQuality p0))
      else
        match parts.get? 1 with
        | none => none
        | some p1 =>
          match requiredPrintable p1 with
          | .error e => some (.error (.appPlatformName p1 e))
          | .ok _ =>
            match parts.get? 2 with
            | none => none
            | some p2 =>
              match requiredPrintable p2 with
              | .error e => some (.error (.appProductName p2 e))
              | .ok _ =>
                match parts.get? 3 with
                | none => none
                | some p3 =>
                  match validateSemVer p3 with
                  | .error e => some (.error (.appProductVersion p2 p3 e))
                  | .ok _ =>
                    match parts.get? 4 with
                    | none => none
                    | some p4 =>
                      match requiredPrintable p4 with
                      | .error e => some (.error (.appComponent p4 p3 p2 e))
                      | .ok _ => some (.ok ())

/-- `validateArtifact`.  As in the source, the validated segment is
`parts[1]`, the second one after the ring selector. -/
def validateArtifact (parts : List (List Char)) : VOut :=
  if parts.length < 2 then some (.error .artifactCount)
  else
    match parts.get? 1 with
    | none => none
    | some p1 =>
      match requiredPrintable p1 with
      | .error e => some (.error (.artifactType p1 e))
      | .ok _ => some (.ok ())

/-- The `validators` ring table. -/
def ringValidator (ring : List Char) : Option (List (List Char) → VOut) :=
  if ring = "meta".data then some validateMeta
  else if ring = "infra".data then some validateInfra
  else if ring = "platform".data then some validatePlatform
  else if ring = "product".data then some validateProduct
  else if ring = "app".data then some validateApplication
  else if ring = "artifact".data then some validateArtifact
  else none

/-- `Validate`: raw required/printable-ASCII check, `Clean`, split on
`/`, part-count check, ring dispatch. -/
def Validate (path : List Char) : VOut :=
  match requiredPrintable path with
  | .error e => some (.error (.pathSyntax e))
  | .ok _ =>
    let parts := (Clean path).splitOn '/'
    if parts.length < 2 then some (.error .tooFewParts)
    else
      match parts.get? 0 with
      | none => none
      | some ring =>
        match ringValidator ring with
        | none => some (.error (.invalidRing ring))
        | some v => v (parts.drop 1)

/-! ### The secret value packer (`encoding/asn1` over a type/body pair)

`Pack` marshals the value with `asn1.Marshal`; `Unpack` unmarshals with
`asn1.Unmarshal` and ignores the returned rest.  The packed value is the
spec's SecretValue: a type-tag string plus an opaque byte body, marshalled
as `SEQUENCE { type, OCTET STRING body }` where the type string becomes a
`PrintableString` when its bytes fit that character set and a `UTF8String`
otherwise (`asn1.Marshal` fails when they are not valid UTF-8 either).
Go strings and byte slices are both byte sequences, modelled as `List Nat`. -/

/-- A type-tag/body pair, the spec's SecretValue. -/
structure SecretValue where
  ty : List Nat
  body : List Nat
  deriving DecidableEq, Repr

/-- `encoding/asn1`'s `isPrintable` character test without the asterisk
and ampersand allowances (the marshalling side). -/
def asn1PrintableStrict (b : Nat) : Bool :=
  (97 ≤ b && b ≤ 122) || (65 ≤ b && b ≤ 90) || (48 ≤ b && b ≤ 57) ||
  (39 ≤ b && b ≤ 41) || (43 ≤ b && b ≤ 47) || b == 32 || b == 58 ||
  b == 61 || b == 63

/-- `encoding/asn1`'s `isPrintable` with asterisk and ampersand allowed
(the parsing side). -/
def asn1PrintableLoose (b : Nat) : Bool :=
  asn1PrintableStrict b || b == 42 || b == 38

/-- `utf8.Valid` on a byte sequence. -/
def utf8Valid : List Nat → Bool
  | [] => true
  | b :: rest =>
    if b < 0x80 then utf8Valid rest
    else if b < 0xC2 then false
    else if b ≤ 0xDF then
      match rest with
      | b1 :: r => (0x80 ≤ b1 && b1 ≤ 0xBF) && utf8Valid r
      | [] => false
    else if b ≤ 0xEF then
      match rest with
      | b1 :: b2 :: r =>
        (if b = 0xE0 then 0xA0 ≤ b1 && b1 ≤ 0xBF
         else if b = 0xED then 0x80 ≤ b1 && b1 ≤ 0x9F
         else 0x80 ≤ b1 && b1 ≤ 0xBF) &&
        (0x80 ≤ b2 && b2 ≤ 0xBF) && utf8Valid r
      | _ => false
    else if b ≤ 0xF4 then
      match rest with
      | b1 :: b2 :: b3 :: r =>
        (if b = 0xF0 then 0x90 ≤ b1 && b1 ≤ 0xBF
         else if b = 0xF4 then 0x80 ≤ b1 && b1 ≤ 0x8F
         else 0x80 ≤ b1 && b1 ≤ 0xBF) &&
        (0x80 ≤ b2 && b2 ≤ 0xBF) && (0x80 ≤ b3 && b3 ≤ 0xBF) && utf8Valid r
      | _ => false
    else false

/-- Minimal big-endian base-256 digits of `n` (`[]` for zero); the fuel
argument makes the recursion structural. -/
def natToBEAux : Nat → Nat → List Nat
  | 0, _ => []
  | _ + 1, 0 => []
  | fuel + 1, n => natToBEAux fuel (n / 256) ++ [n % 256]

/-- Minimal big-endian base-256 digits of `n`. -/
def natToBE (n : Nat) : List Nat :=
  natToBEAux n n

/-- DER length octets: short form below 0x80, otherwise `0x80 + count`
followed by the minimal big-endian bytes. -/
def encLen (n : Nat) : List Nat :=
  if n < 0x80 then [n] else (0x80 + (natToBE n).length) :: natToBE n

/-- One tag-length-value item. -/
def tlv (tag : Nat) (contents : List Nat) : List Nat :=
  tag :: encLen contents.length ++ contents

/-- `Pack`: `asn1.Marshal` of the type/body pair.  Returns `none` exactly
when the marshaller errors (a type tag that is neither printable nor
valid UTF-8). -/
def Pack (v : SecretValue) : Option (List Nat) :=
  let strTLV :=
    if v.ty.all asn1PrintableStrict then some (tlv 0x13 v.ty)
    else if utf8Valid v.ty then some (tlv 0x0C v.ty)
    else none
  strTLV.map (fun s => tlv 0x30 (s ++ tlv 0x04 v.body))

/-- Parse the base-128/base-256 length octets after a tag, enforcing the
checks of Go's `parseTagAndLength`: no indefinite length, an overflow
guard before every shift, no superfluous leading zero and no long form
for a short length. -/
def parseLenBytes : Nat → Nat → List Nat → Option (Nat × List Nat)
  | 0, acc, rest => if acc < 0x80 then none else some (acc, rest)
  | n + 1, acc, rest =>
    match rest with
    | [] => none
    | b :: t =>
      if 2 ^ 23 ≤ acc then none
      else
        let acc' := acc * 256 + b
        if acc' = 0 then none
        else parseLenBytes n acc' t

/-- Parse a DER length. -/
def parseLen : List Nat → Option (Nat × List Nat)
  | [] => none
  | b :: rest =>
    if b < 0x80 then some (b, rest)
    else
      let numBytes := b - 0x80
      if numBytes = 0 then none
      else parseLenBytes numBytes 0 rest

/-- Parse one TLV item with the given tag byte, returning contents and
rest; fails on tag mismatch, bad length octets or truncated contents. -/
def parseTLV (tag : Nat) (b : List Nat) : Option (List Nat × List Nat) :=
  match b with
  | [] => none
  | t :: rest =>
    if t ≠ tag then none
    else
      match parseLen rest with
      | none => none
      | some (len, r2) =>
        if r2.length < len then none
        else some (r2.take len, r2.drop len)

/-- Parse the string field: a `PrintableString` whose bytes pass the
loose printable test, or a `UTF8String` whose bytes are valid UTF-8.
(Go dispatches on the tag byte; since `parseTLV` fails on any other tag,
trying the two accepted tags in turn is the same function.) -/
def parseStringTLV (b : List Nat) : Option (List Nat × List Nat) :=
  match parseTLV 0x13 b with
  | some (c, rest) => if c.all asn1PrintableLoose then some (c, rest) else none
  | none =>
    match parseTLV 0x0C b with
    | some (c, rest) => if utf8Valid c then some (c, rest) else none
    | none => none

/-- `Unpack`: `asn1.Unmarshal` into the type/body pair.  Parses the outer
`SEQUENCE`, then the string and the `OCTET STRING` inside it; bytes after
each parsed item are ignored, as in Go. -/
def Unpack (b : List Nat) : Option SecretValue :=
  match parseTLV 0x30 b with
  | none => none
  | some (inner, _) =>
    match parseStringTLV inner with
    | none => none
    | some (ty, r1) =>
      match parseTLV 0x04 r1 with
      | none => none
      | some (body, _) => some ⟨ty, body⟩

/-! ### Packer lemmas -/

/-- Big-endian read-back of length bytes, starting from `acc`. -/
def beVal (acc : Nat) (L : List Nat) : Nat :=
  L.foldl (fun a b => a * 256 + b) acc

theorem beVal_cons (acc b : Nat) (L : List Nat) :
    beVal acc (b :: L) = beVal (acc * 256 + b) L := rfl

theorem beVal_append_single (acc d : Nat) (xs : List Nat) :
    beVal acc (xs ++ [d]) = beVal acc xs * 256 + d := by
  simp [beVal, List.foldl_append]

theorem beVal_lower (acc : Nat) (L : List Nat) :
    acc * 256 ^ L.length ≤ beVal acc L := by
  induction L generalizing acc with
  | nil => simp [beVal]
  | cons b t ih =>
    rw [beVal_cons]
    calc acc * 256 ^ (b :: t).length = acc * 256 * 256 ^ t.length := by
          rw [List.length_cons, pow_succ]; ring
    _ ≤ (acc * 256 + b) * 256 ^ t.length := by
        have : acc * 256 ≤ acc * 256 + b := Nat.le_add_right _ _
        exact Nat.mul_le_mul_right _ this
    _ ≤ beVal (acc * 256 + b) t := ih _

theorem natToBEAux_zero (f : Nat) : natToBEAux f 0 = [] := by
  cases f <;> rfl

theorem natToBEAux_fuel (n : Nat) :
    ∀ f1 f2, n ≤ f1 → n ≤ f2 → natToBEAux f1 n = natToBEAux f2 n := by
  induction n using Nat.strongRecOn with
  | ind n ih =>
    intro f1 f2 h1 h2
    cases n with
    | zero => rw [natToBEAux_zero, natToBEAux_zero]
    | succ k =>
      cases f1 with
      | zero => omega
      | succ a =>
        cases f2 with
        | zero => omega
        | succ b =>
          show natToBEAux a ((k + 1) / 256) ++ [(k + 1) % 256] =
            natToBEAux b ((k + 1) / 256) ++ [(k + 1) % 256]
          have hd : (k + 1) / 256 < k + 1 := Nat.div_lt_self (Nat.succ_pos k) (by omega)
          rw [ih _ hd a b (by omega) (by omega)]

theorem natToBE_unfold (n : Nat) (h : 1 ≤ n) :
    natToBE n = natToBE (n / 256) ++ [n % 256] := by
  cases n with
  | zero => omega
  | succ m =>
    show natToBEAux (m + 1) (m + 1) = natToBE ((m + 1) / 256) ++ [(m + 1) % 256]
    have hd : (m + 1) / 256 < m + 1 := Nat.div_lt_self (Nat.succ_pos m) (by omega)
    show natToBEAux m ((m + 1) / 256) ++ [(m + 1) % 256] = _
    rw [natToBEAux_fuel ((m + 1) / 256) m ((m + 1) / 256) (by omega) (le_refl _)]
    rfl

theorem beVal_natToBE (n : Nat) : beVal 0 (natToBE n) = n := by
  induction n using Nat.strongRecOn with
  | ind n ih =>
    cases n with
    | zero => rfl
    | succ k =>
      rw [natToBE_unfold (k + 1) (by omega), beVal_append_single,
        ih ((k + 1) / 256) (Nat.div_lt_self (Nat.succ_pos k) (by omega))]
      omega

theorem natToBE_ne_nil (n : Nat) (h : 1 ≤ n) : natToBE n ≠ [] := by
  rw [natToBE_unfold n h]
  simp

theorem natToBE_head_ne_zero (n : Nat) (h : 1 ≤ n) :
    ∀ b t, natToBE n = b :: t → b ≠ 0 := by
  induction n using Nat.strongRecOn with
  | ind n ih =>
    intro b t heq
    rw [natToBE_unfold n h] at heq
    by_cases hs : n < 256
    · rw [Nat.div_eq_of_lt hs] at heq
      simp [natToBE, natToBEAux] at heq
      omega
    · have h1 : 1 ≤ n / 256 := Nat.le_div_iff_mul_le (by omega) |>.mpr (by omega)
      cases hsp : natToBE (n / 256) with
      | nil => exact absurd hsp (natToBE_ne_nil _ h1)
      | cons b' t' =>
        rw [hsp] at heq
        simp at heq
        exact heq.1 ▸ ih (n / 256) (Nat.div_lt_self (by omega) (by omega)) h1 b' t' hsp

theorem natToBE_length_le (k : Nat) : ∀ n, n < 256 ^ k → (natToBE n).length ≤ k := by
  induction k with
  | zero => intro n h; interval_cases n; simp [natToBE, natToBEAux]
  | succ k ih =>
    intro n h
    cases Nat.eq_zero_or_pos n with
    | inl h0 => simp [h0, natToBE, natToBEAux_zero]
    | inr h1 =>
      rw [natToBE_unfold n h1]
      have : n / 256 < 256 ^ k := by
        rw [Nat.div_lt_iff_lt_mul (by omega)]
        calc n < 256 ^ (k + 1) := h
        _ = 256 ^ k * 256 := by ring
      simpa using ih (n / 256) this

theorem parseLenBytes_run (L : List Nat) :
    ∀ acc rest, 1 ≤ acc → beVal acc L < 2 ^ 31 →
      parseLenBytes L.length acc (L ++ rest) =
        if beVal acc L < 0x80 then none else some (beVal acc L, rest) := by
  induction L with
  | nil =>
    intro acc rest _ _
    simp only [beVal, List.foldl_nil, List.nil_append, List.length_nil, parseLenBytes]
  | cons b t ih =>
    intro acc rest hacc hlt
    have hbound : acc * 256 ^ (b :: t).length ≤ beVal acc (b :: t) := beVal_lower acc _
    have hacc23 : ¬ 2 ^ 23 ≤ acc := by
      intro hge
      have h256 : (256 : Nat) ≤ 256 ^ (b :: t).length := by
        have : 1 ≤ t.length + 1 := by omega
        calc (256 : Nat) = 256 ^ 1 := by norm_num
        _ ≤ 256 ^ (b :: t).length := Nat.pow_le_pow_right (by omega) (by simp)
      have : 2 ^ 23 * 256 ≤ acc * 256 ^ (b :: t).length :=
        Nat.mul_le_mul hge h256
      have : 2 ^ 31 ≤ beVal acc (b :: t) := by
        calc (2 ^ 31 : Nat) = 2 ^ 23 * 256 := by norm_num
        _ ≤ acc * 256 ^ (b :: t).length := this
        _ ≤ beVal acc (b :: t) := hbound
      omega
    have hacc' : acc * 256 + b ≠ 0 := by positivity
    show parseLenBytes (t.length + 1) acc (b :: (t ++ rest)) = _
    rw [parseLenBytes, if_neg hacc23, if_neg hacc']
    rw [beVal_cons]
    exact ih (acc * 256 + b) rest (by omega) (by rw [beVal_cons] at hlt; exact hlt)

theorem parseLen_encLen (n : Nat) (h : n < 2 ^ 31) (rest : List Nat) :
    parseLen (encLen n ++ rest) = some (n, rest) := by
  by_cases hs : n < 0x80
  · simp only [encLen, if_pos hs, List.cons_append, List.nil_append, parseLen, if_pos hs]
  · have h1 : 1 ≤ n := by omega
    simp only [encLen, if_neg hs, List.cons_append, parseLen]
    have hlen : 1 ≤ (natToBE n).length :=
      List.length_pos.mpr (natToBE_ne_nil n h1)
    rw [if_neg (by omega)]
    have hnb : 0x80 + (natToBE n).length - 0x80 = (natToBE n).length := by omega
    rw [hnb, if_neg (by omega)]
    cases hsp : natToBE n with
    | nil => exact absurd hsp (natToBE_ne_nil n h1)
    | cons b0 t0 =>
      have hb0 : b0 ≠ 0 := natToBE_head_ne_zero n h1 b0 t0 hsp
      have hval : beVal b0 t0 = n := by
        have := beVal_natToBE n
        rw [hsp, beVal_cons] at this
        simpa using this
      show parseLenBytes (b0 :: t0).length 0 ((b0 :: t0) ++ rest) = _
      rw [List.length_cons, List.cons_append]
      show parseLenBytes (t0.length + 1) 0 (b0 :: (t0 ++ rest)) = _
      rw [parseLenBytes, if_neg (by norm_num), if_neg (by simpa using hb0)]
      have h0 : (0 : Nat) * 256 + b0 = b0 := by omega
      rw [h0]
      rw [parseLenBytes_run t0 b0 rest (by omega) (by rw [hval]; exact h)]
      rw [hval, if_neg hs]

theorem parseTLV_tlv (tag : Nat) (c rest : List Nat) (h : c.length < 2 ^ 31) :
    parseTLV tag (tlv tag c ++ rest) = some (c, rest) := by
  show parseTLV tag (tag :: (encLen c.length ++ c) ++ rest) = some (c, rest)
  rw [List.cons_append, parseTLV, if_neg (by simp), List.append_assoc,
    parseLen_encLen c.length h (c ++ rest)]
  show (if (c ++ rest).length < c.length then none
    else some ((c ++ rest).take c.length, (c ++ rest).drop c.length)) = some (c, rest)
  rw [if_neg (by simp), List.take_left c rest, List.drop_left c rest]

theorem parseTLV_wrong_tag (tag t : Nat) (rest : List Nat) (h : t ≠ tag) :
    parseTLV tag (t :: rest) = none := by
  rw [parseTLV, if_pos h]

theorem encLen_length_le (n : Nat) (h : n < 2 ^ 23) : (encLen n).length ≤ 4 := by
  by_cases hs : n < 0x80
  · simp [encLen, hs]
  · simp only [encLen, if_neg hs, List.length_cons]
    have h3 : n < 256 ^ 3 := by norm_num at h ⊢; omega
    have := natToBE_length_le 3 n h3
    omega

theorem tlv_length_le (tag : Nat) (c : List Nat) (h : c.length < 2 ^ 23) :
    (tlv tag c).length ≤ c.length + 5 := by
  have := encLen_length_le c.length h
  simp only [tlv, List.length_cons, List.length_append]
  omega

theorem all_printable_strict_loose (l : List Nat) (h : l.all asn1PrintableStrict = true) :
    l.all asn1PrintableLoose = true := by
  rw [List.all_eq_true] at h ⊢
  intro x hx
  have := h x hx
  simp [asn1PrintableLoose, this]

theorem parseStringTLV_printable (ty rest : List Nat)
    (hp : ty.all asn1PrintableStrict = true) (h2 : ty.length < 2 ^ 31) :
    parseStringTLV (tlv 0x13 ty ++ rest) = some (ty, rest) := by
  rw [parseStringTLV, parseTLV_tlv 0x13 ty rest h2]
  show (if ty.all asn1PrintableLoose then some (ty, rest) else none) = some (ty, rest)
  rw [if_pos (all_printable_strict_loose ty hp)]

theorem parseStringTLV_utf8 (ty rest : List Nat)
    (hp : utf8Valid ty = true) (h2 : ty.length < 2 ^ 31) :
    parseStringTLV (tlv 0x0C ty ++ rest) = some (ty, rest) := by
  have h13 : parseTLV 0x13 (tlv 0x0C ty ++ rest) = none := by
    show parseTLV 0x13 (0x0C :: (encLen ty.length ++ ty ++ rest)) = none
    exact parseTLV_wrong_tag 0x13 0x0C _ (by norm_num)
  rw [parseStringTLV, h13, parseTLV_tlv 0x0C ty rest h2]
  show (if utf8Valid ty then some (ty, rest) else none) = some (ty, rest)
  rw [if_pos hp]

/-- Core round-trip: unpacking a packed value followed by arbitrary
trailing bytes recovers the value. -/
theorem unpack_pack_core (v : SecretValue) (s b : List Nat)
    (hty : v.ty.length < 2 ^ 23) (hbody : v.body.length < 2 ^ 23)
    (h : Pack v = some b) : Unpack (b ++ s) = some v := by
  have hty31 : v.ty.length < 2 ^ 31 := by omega
  have hbody31 : v.body.length < 2 ^ 31 := by omega
  have hinner : ∀ st : Nat, (tlv st v.ty ++ tlv 0x04 v.body).length < 2 ^ 31 := by
    intro st
    have h1 := tlv_length_le st v.ty hty
    have h2 := tlv_length_le 0x04 v.body hbody
    simp only [List.length_append]
    omega
  by_cases hA : v.ty.all asn1PrintableStrict
  · have hb : b = tlv 0x30 (tlv 0x13 v.ty ++ tlv 0x04 v.body) := by
      simp only [Pack, if_pos hA, Option.map_some] at h
      exact (Option.some.injEq _ _ ▸ h).symm
    rw [hb, Unpack, parseTLV_tlv 0x30 _ s (hinner 0x13)]
    show (match parseStringTLV (tlv 0x13 v.ty ++ tlv 0x04 v.body) with
      | none => none
      | some (ty, r1) =>
        match parseTLV 0x04 r1 with
        | none => none
        | some (body, _) => some (⟨ty, body⟩ : SecretValue)) = some v
    rw [parseStringTLV_printable v.ty _ hA hty31]
    show (match parseTLV 0x04 (tlv 0x04 v.body) with
      | none => none
      | some (body, _) => some (⟨v.ty, body⟩ : SecretValue)) = some v
    have h04 : parseTLV 0x04 (tlv 0x04 v.body) = some (v.body, []) := by
      have := parseTLV_tlv 0x04 v.body [] hbody31
      simpa using this
    rw [h04]
  · by_cases hB : utf8Valid v.ty
    · have hb : b = tlv 0x30 (tlv 0x0C v.ty ++ tlv 0x04 v.body) := by
        simp only [Pack, if_neg hA, if_pos hB, Option.map_some] at h
        exact (Option.some.injEq _ _ ▸ h).symm
      rw [hb, Unpack, parseTLV_tlv 0x30 _ s (hinner 0x0C)]
      show (match parseStringTLV (tlv 0x0C v.ty ++ tlv 0x04 v.body) with
        | none => none
        | some (ty, r1) =>
          match parseTLV 0x04 r1 with
          | none => none
          | some (body, _) => some (⟨ty, body⟩ : SecretValue)) = some v
      rw [parseStringTLV_utf8 v.ty _ hB hty31]
      show (match parseTLV 0x04 (tlv 0x04 v.body) with
        | none => none
        | some (body, _) => some (⟨v.ty, body⟩ : SecretValue)) = some v
      have h04 : parseTLV 0x04 (tlv 0x04 v.body) = some (v.body, []) := by
        have := parseTLV_tlv 0x04 v.body [] hbody31
        simpa using this
      rw [h04]
    · have hA' : v.ty.all asn1PrintableStrict = false := Bool.eq_false_iff.mpr hA
      have hB' : utf8Valid v.ty = false := Bool.eq_false_iff.mpr hB
      rw [Pack] at h
      simp [hA', hB'] at h

/-! ### Normalization-invariance lemmas -/

/-- Accept/reject outcome of a validation: `true` exactly on success. -/
def isOkOut : VOut → Bool
  | some (.ok _) => true
  | _ => false

theorem mem_clean (p : List Char) (c : Char) (h : c ∈ Clean p) :
    c ∈ p ∨ c = '/' := by
  rcases mem_intercalate_slash _ c h with ⟨s, hs, hcs⟩ | h1
  · by_cases hc : c = '/'
    · exact Or.inr hc
    · exact Or.inl ((mem_splitOn_iff '/' c p hc).mpr
        ⟨s, List.mem_of_mem_filter hs, hcs⟩)
  · exact Or.inr h1

theorem mem_clean_of_mem (p : List Char) (c : Char) (hc : c ≠ '/')
    (h : c ∈ p) : c ∈ Clean p := by
  rcases (mem_splitOn_iff '/' c p hc).mp h with ⟨seg, hseg, hcs⟩
  have hne : seg ≠ [] := fun h0 => by simp [h0] at hcs
  refine mem_intercalate_slash_of_mem _ c seg ?_ hcs
  exact List.mem_filter.mpr ⟨hseg, by simpa using hne⟩

theorem clean_all_printable (p : List Char) (h : p.all printableChar = true) :
    (Clean p).all printableChar = true := by
  rw [List.all_eq_true] at h ⊢
  intro c hc
  rcases mem_clean p c hc with h1 | h1
  · exact h c h1
  · subst h1; decide

theorem clean_ne_nil (p : List Char) (hF : cleanSegs p ≠ []) : Clean p ≠ [] := by
  refine intercalate_slash_ne_nil _ hF ?_
  intro s hs
  simpa using (List.mem_filter.mp hs).2

theorem clean_eq_nil (p : List Char) (hF : cleanSegs p = []) : Clean p = [] := by
  show List.intercalate ['/'] (cleanSegs p) = []
  rw [hF]
  simp [List.intercalate]

theorem cleanSegs_nil_of_nil (p : List Char) (h : p = []) : cleanSegs p = [] := by
  subst h
  simp [cleanSegs]

theorem requiredPrintable_ok_iff (s : List Char) :
    requiredPrintable s = .ok () ↔ s ≠ [] ∧ s.all printableChar = true := by
  unfold requiredPrintable
  constructor
  · intro h
    by_cases h1 : s = []
    · simp [h1] at h
    · by_cases h2 : s.all printableChar
      · exact ⟨h1, h2⟩
      · simp [h1, h2] at h
  · rintro ⟨h1, h2⟩
    simp [h1, h2]

theorem validate_clean_isOk (p : List Char) :
    isOkOut (Validate (Clean p)) = isOkOut (Validate p) := by
  by_cases hF : cleanSegs p = []
  · rw [clean_eq_nil p hF]
    have hL : isOkOut (Validate []) = false := rfl
    rw [hL]
    unfold Validate
    cases hr : requiredPrintable p with
    | error e => simp [isOkOut]
    | ok u =>
      rw [clean_eq_nil p hF]
      simp [isOkOut]
  · by_cases hraw : requiredPrintable p = .ok ()
    · obtain ⟨hne, hall⟩ := (requiredPrintable_ok_iff p).mp hraw
      have hrawc : requiredPrintable (Clean p) = .ok () :=
        (requiredPrintable_ok_iff _).mpr ⟨clean_ne_nil p hF, clean_all_printable p hall⟩
      unfold Validate
      rw [hraw, hrawc, clean_idem]
    · have hpne : p ≠ [] := fun h0 => hF (cleanSegs_nil_of_nil p h0)
      have hnall : p.all printableChar = false := by
        by_cases h2 : p.all printableChar
        · exact absurd ((requiredPrintable_ok_iff p).mpr ⟨hpne, h2⟩) hraw
        · exact Bool.eq_false_iff.mpr h2
      obtain ⟨c, hcp, hcnp⟩ : ∃ c ∈ p, ¬ printableChar c := by
        rw [← Bool.not_eq_true, List.all_eq_true] at hnall
        push_neg at hnall
        exact hnall
      have hc : c ≠ '/' := by
        intro h
        subst h
        exact hcnp (by decide)
      have hcallF : ¬ (Clean p).all printableChar := by
        rw [List.all_eq_true]
        push_neg
        exact ⟨c, mem_clean_of_mem p c hc hcp, hcnp⟩
      have h1 : requiredPrintable p = .error .nonPrintable := by
        unfold requiredPrintable
        rw [if_neg hpne, if_neg (by simp [hnall])]
      have h2 : requiredPrintable (Clean p) = .error .nonPrintable := by
        unfold requiredPrintable
        rw [if_neg (clean_ne_nil p hF)]
        simp [hcallF]
      unfold Validate
      rw [h1, h2]

/-! ### Totality: every index is guarded by the part-count check -/

theorem validateMeta_isSome (parts : List (List Char)) :
    (validateMeta parts).isSome := by
  unfold validateMeta
  split
  · simp
  · split
    · rename_i heq
      rename_i hlen
      exact absurd (List.get?_eq_none.mp heq) (by omega)
    · split <;> simp

theorem validateInfra_isSome (parts : List (List Char)) :
    (validateInfra parts).isSome := by
  unfold validateInfra
  split
  · simp
  rename_i hlen
  split
  · rename_i heq
    exact absurd (List.get?_eq_none.mp heq) (by omega)
  split
  · simp
  split
  · rename_i heq
    exact absurd (List.get?_eq_none.mp heq) (by omega)
  split
  · simp
  split
  · rename_i heq
    exact absurd (List.get?_eq_none.mp heq) (by omega)
  split <;> simp

theorem validatePlatform_isSome (parts : List (List Char)) :
    (validatePlatform parts).isSome := by
  unfold validatePlatform
  split
  · simp
  rename_i hlen
  split
  · rename_i heq
    exact absurd (List.get?_eq_none.mp heq) (by omega)
  split
  · simp
  split
  · rename_i heq
    exact absurd (List.get?_eq_none.mp heq) (by omega)
  split
  · simp
  split
  · rename_i heq
    exact absurd (List.get?_eq_none.mp heq) (by omega)
  split
  · simp
  split
  · rename_i heq
    exact absurd (List.get?_eq_none.mp heq) (by omega)
  split <;> simp

theorem validateProduct_isSome (parts : List (List Char)) :
    (validateProduct parts).isSome := by
  unfold validateProduct
  split
  · simp
  rename_i hlen
  split
  · rename_i heq
    exact absurd (List.get?_eq_none.mp heq) (by omega)
  split
  · simp
  split
  · rename_i heq
    exact absurd (List.get?_eq_none.mp heq) (by omega)
  split <;> simp

theorem validateApplication_isSome (parts : List (List Char)) :
    (validateApplication parts).isSome := by
  unfold validateApplication
  split
  · simp
  rename_i hlen
  split
  · rename_i heq
    exact absurd (List.get?_eq_none.mp heq) (by omega)
  split
  · simp
  split
  · rename_i heq
    exact absurd (List.get?_eq_none.mp heq) (by omega)
  split
  · simp
  split
  · rename_i heq
    exact absurd (List.get?_eq_none.mp heq) (by omega)
  split
  · simp
  split
  · rename_i heq
    exact absurd (List.get?_eq_none.mp heq) (by omega)
  split
  · simp
  split
  · rename_i heq
    exact absurd (List.get?_eq_none.mp heq) (by omega)
  split <;> simp

theorem validateArtifact_isSome (parts : List (List Char)) :
    (validateArtifact parts).isSome := by
  unfold validateArtifact
  split
  · simp
  · split
    · rename_i heq
      rename_i hlen
      exact absurd (List.get?_eq_none.mp heq) (by omega)
    · split <;> simp

theorem ringValidator_isSome (ring : List Char) (f : List (List Char) → VOut)
    (h : ringValidator ring = some f) (parts : List (List Char)) :
    (f parts).isSome := by
  unfold ringValidator at h
  split_ifs at h <;> (cases h; first
    | exact validateMeta_isSome parts
    | exact validateInfra_isSome parts
    | exact validatePlatform_isSome parts
    | exact validateProduct_isSome parts
    | exact validateApplication_isSome parts
    | exact validateArtifact_isSome parts)

theorem validate_isSome (path : List Char) : (Validate path).isSome := by
  unfold Validate
  split
  · simp
  dsimp only
  split
  · simp
  rename_i hlen
  split
  · rename_i heq
    exact absurd (List.get?_eq_none.mp heq) (by omega)
  split
  · simp
  rename_i f hf
  exact ringValidator_isSome _ f hf _

/-! ### Acceptance characterizations of the ring validators -/

theorem validateInfra_ok_iff (parts : List (List Char)) :
    validateInfra parts = some (.ok ()) ↔
      4 ≤ parts.length ∧
      ∃ p0 p1 p2 rs,
        parts.get? 0 = some p0 ∧ parts.get? 1 = some p1 ∧ parts.get? 2 = some p2 ∧
        lookupRegions p0 = some rs ∧ requiredPrintable p1 = .ok () ∧
        rs.contains p2 = true := by
  constructor
  · intro h
    unfold validateInfra at h
    split at h
    · simp at h
    rename_i hlen
    split at h
    · simp at h
    rename_i p0 hp0
    split at h
    · simp at h
    rename_i rs hrs
    split at h
    · simp at h
    rename_i p1 hp1
    split at h
    · simp at h
    rename_i u hreq
    split at h
    · simp at h
    rename_i p2 hp2
    split at h
    · rename_i hcont
      exact ⟨by omega, p0, p1, p2, rs, hp0, hp1, hp2, hrs, by cases u; exact hreq, hcont⟩
    · simp at h
  · rintro ⟨hlen, p0, p1, p2, rs, hp0, hp1, hp2, hrs, hreq, hcont⟩
    simp only [validateInfra, if_neg (show ¬ parts.length < 4 by omega), hp0, hrs, hp1,
      hreq, hp2, hcont, if_true]

theorem validatePlatform_ok_iff (parts : List (List Char)) :
    validatePlatform parts = some (.ok ()) ↔
      5 ≤ parts.length ∧
      ∃ p0 p1 p2 p3,
        parts.get? 0 = some p0 ∧ parts.get? 1 = some p1 ∧ parts.get? 2 = some p2 ∧
        parts.get? 3 = some p3 ∧
        platformQualityLevels.contains p0 = true ∧ requiredPrintable p1 = .ok () ∧
        cloudProviderRegions.any (fun e => e.2.contains p2) = true ∧
        requiredPrintable p3 = .ok () := by
  constructor
  · intro h
    unfold validatePlatform at h
    split at h
    · simp at h
    rename_i hlen
    split at h
    · simp at h
    rename_i p0 hp0
    split at h
    · simp at h
    rename_i hqual
    split at h
    · simp at h
    rename_i p1 hp1
    split at h
    · simp at h
    rename_i u1 hreq1
    split at h
    · simp at h
    rename_i p2 hp2
    split at h
    · simp at h
    rename_i hreg
    split at h
    · simp at h
    rename_i p3 hp3
    split at h
    · simp at h
    rename_i u3 hreq3
    refine ⟨by omega, p0, p1, p2, p3, hp0, hp1, hp2, hp3, ?_, ?_, ?_, ?_⟩
    · simpa using hqual
    · cases u1; exact hreq1
    · simpa using hreg
    · cases u3; exact hreq3
  · rintro ⟨hlen, p0, p1, p2, p3, hp0, hp1, hp2, hp3, hqual, hreq1, hreg, hreq3⟩
    simp only [validatePlatform, if_neg (show ¬ parts.length < 5 by omega), hp0, hp1,
      hp2, hp3, hreq1, hreq3, hqual, hreg]
    simp

theorem validateProduct_ok_iff (parts : List (List Char)) :
    validateProduct parts = some (.ok ()) ↔
      3 ≤ parts.length ∧
      ∃ p0 p1,
        parts.get? 0 = some p0 ∧ parts.get? 1 = some p1 ∧
        requiredPrintable p0 = .ok () ∧ validateSemVer p1 = .ok () := by
  constructor
  · intro h
    unfold validateProduct at h
    split at h
    · simp at h
    rename_i hlen
    split at h
    · simp at h
    rename_i p0 hp0
    split at h
    · simp at h
    rename_i u0 hreq0
    split at h
    · simp at h
    rename_i p1 hp1
    split at h
    · simp at h
    rename_i u1 hsem
    exact ⟨by omega, p0, p1, hp0, hp1, by cases u0; exact hreq0, by cases u1; exact hsem⟩
  · rintro ⟨hlen, p0, p1, hp0, hp1, hreq0, hsem⟩
    simp only [validateProduct, if_neg (show ¬ parts.length < 3 by omega), hp0, hp1,
      hreq0, hsem]

theorem validateApplication_ok_iff (parts : List (List Char)) :
    validateApplication parts = some (.ok ()) ↔
      6 ≤ parts.length ∧
      ∃ p0 p1 p2 p3 p4,
        parts.get? 0 = some p0 ∧ parts.get? 1 = some p1 ∧ parts.get? 2 = some p2 ∧
        parts.get? 3 = some p3 ∧ parts.get? 4 = some p4 ∧
        platformQualityLevels.contains p0 = true ∧ requiredPrintable p1 = .ok () ∧
        requiredPrintable p2 = .ok () ∧ validateSemVer p3 = .ok () ∧
        requiredPrintable p4 = .ok () := by
  constructor
  · intro h
    unfold validateApplication at h
    split at h
    · simp at h
    rename_i hlen
    split at h
    · simp at h
    rename_i p0 hp0
    split at h
    · simp at h
    rename_i hqual
    split at h
    · simp at h
    rename_i p1 hp1
    split at h
    · simp at h
    rename_i u1 hreq1
    split at h
    · simp at h
    rename_i p2 hp2
    split at h
    · simp at h
    rename_i u2 hreq2
    split at h
    · simp at h
    rename_i p3 hp3
    split at h
    · simp at h
    rename_i u3 hsem
    split at h
    · simp at h
    rename_i p4 hp4
    split at h
    · simp at h
    rename_i u4 hreq4
    refine ⟨by omega, p0, p1, p2, p3, p4, hp0, hp1, hp2, hp3, hp4, ?_,
      by cases u1; exact hreq1, by cases u2; exact hreq2,
      by cases u3; exact hsem, by cases u4; exact hreq4⟩
    simpa using hqual
  · rintro ⟨hlen, p0, p1, p2, p3, p4, hp0, hp1, hp2, hp3, hp4, hqual, hreq1, hreq2,
      hsem, hreq4⟩
    simp only [validateApplication, if_neg (show ¬ parts.length < 6 by omega), hp0,
      hp1, hp2, hp3, hp4, hreq1, hreq2, hsem, hreq4, hqual]
    simp

theorem validateArtifact_ok_iff (parts : List (List Char)) :
    validateArtifact parts = some (.ok ()) ↔
      2 ≤ parts.length ∧
      ∃ p1, parts.get? 1 = some p1 ∧ requiredPrintable p1 = .ok () := by
  constructor
  · intro h
    unfold validateArtifact at h
    split at h
    · simp at h
    rename_i hlen
    split at h
    · simp at h
    rename_i p1 hp1
    split at h
    · simp at h
    rename_i u1 hreq1
    exact ⟨by omega, p1, hp1, by cases u1; exact hreq1⟩
  · rintro ⟨hlen, p1, hp1, hreq1⟩
    simp only [validateArtifact, if_neg (show ¬ parts.length < 2 by omega), hp1, hreq1]

/-- Decomposition of a successful `Validate`: the raw check passed, there
are at least two segments, and the ring validator of the first segment
accepted the remaining segments. -/
theorem validate_ok_decomp (p : List Char) (h : Validate p = some (.ok ())) :
    requiredPrintable p = .ok () ∧
    2 ≤ ((Clean p).splitOn '/').length ∧
    ∃ ring f, ((Clean p).splitOn '/').get? 0 = some ring ∧
      ringValidator ring = some f ∧
      f (((Clean p).splitOn '/').drop 1) = some (.ok ()) := by
  unfold Validate at h
  split at h
  · simp at h
  rename_i u hraw
  dsimp only at h
  split at h
  · simp at h
  rename_i hlen
  split at h
  · simp at h
  rename_i ring hring
  split at h
  · simp at h
  rename_i f hf
  exact ⟨by cases u; exact hraw, by omega, ring, f, hring, hf, h⟩

/-! ### Leniency of `validateSemVer` under white space and case -/

theorem isSpaceGo_not_upper (c : Char) (h : isSpaceGo c = true) :
    ¬ (65 ≤ c.toNat ∧ c.toNat ≤ 90) := by
  simp only [isSpaceGo, Bool.or_eq_true, Bool.and_eq_true, decide_eq_true_eq,
    beq_iff_eq, Nat.le_iff_lt_or_eq] at h
  omega

theorem toLowerGo_of_all_space (a : List Char) (h : a.all isSpaceGo = true) :
    toLowerGo a = a := by
  unfold toLowerGo
  rw [List.all_eq_true] at h
  induction a with
  | nil => rfl
  | cons c t ih =>
    have hc := h c (List.mem_cons_self c t)
    rw [List.map_cons, show lowerChar c = c from
      by rw [lowerChar, if_neg (isSpaceGo_not_upper c hc)]]
    rw [ih (fun x hx => h x (List.mem_cons_of_mem c hx))]

theorem toLowerGo_append (x y : List Char) :
    toLowerGo (x ++ y) = toLowerGo x ++ toLowerGo y := by
  simp [toLowerGo]

theorem dropWhile_append_all_space (a y : List Char) (h : a.all isSpaceGo = true) :
    (a ++ y).dropWhile isSpaceGo = y.dropWhile isSpaceGo := by
  rw [List.dropWhile_append]
  rw [List.all_eq_true] at h
  have : a.dropWhile isSpaceGo = [] :=
    List.dropWhile_eq_nil_iff.mpr (fun x hx => h x hx)
  simp [this]

theorem trimSpaceGo_sandwich (a b y : List Char)
    (ha : a.all isSpaceGo = true) (hb : b.all isSpaceGo = true) :
    trimSpaceGo (a ++ y ++ b) = trimSpaceGo y := by
  unfold trimSpaceGo
  rw [List.append_assoc, dropWhile_append_all_space a (y ++ b) ha,
    List.dropWhile_append]
  by_cases hd : y.dropWhile isSpaceGo = []
  · have hbnil : b.dropWhile isSpaceGo = [] := by
      rw [List.all_eq_true] at hb
      exact List.dropWhile_eq_nil_iff.mpr (fun x hx => hb x hx)
    simp [hd, hbnil]
  · rw [if_neg (show ¬ (y.dropWhile isSpaceGo).isEmpty = true by
      simp [List.isEmpty_iff, hd])]
    rw [List.reverse_append,
      dropWhile_append_all_space b.reverse _ (by rw [List.all_reverse]; exact hb)]

theorem validateSemVer_surrounding_space (a b v : List Char)
    (ha : a.all isSpaceGo = true) (hb : b.all isSpaceGo = true) :
    validateSemVer (a ++ v ++ b) = validateSemVer v := by
  unfold validateSemVer
  rw [toLowerGo_append, toLowerGo_append,
    toLowerGo_of_all_space a ha, toLowerGo_of_all_space b hb,
    trimSpaceGo_sandwich a b (toLowerGo v) ha hb]

theorem validateSemVer_leading_v_case (v : List Char) :
    validateSemVer ('V' :: v) = validateSemVer ('v' :: v) := by
  unfold validateSemVer
  rw [show toLowerGo ('V' :: v) = lowerChar 'V' :: toLowerGo v from rfl,
    show toLowerGo ('v' :: v) = lowerChar 'v' :: toLowerGo v from rfl,
    show lowerChar 'V' = 'v' from by decide,
    show lowerChar 'v' = 'v' from by decide]

/-- On an accepted path the split segments are exactly the filtered
(non-empty) segments, and each of them is non-empty printable ASCII. -/
theorem validate_ok_segs (p : List Char) (h : Validate p = some (.ok ())) :
    (Clean p).splitOn '/' = cleanSegs p ∧
    ∀ seg ∈ cleanSegs p, seg ≠ [] ∧ seg.all printableChar = true := by
  obtain ⟨hraw, hlen, -⟩ := validate_ok_decomp p h
  have hF : cleanSegs p ≠ [] := by
    intro h0
    have hs := clean_splitOn p
    rw [if_pos h0] at hs
    rw [hs] at hlen
    simp at hlen
  constructor
  · rw [clean_splitOn, if_neg hF]
  · intro seg hseg
    have h1 := List.mem_filter.mp hseg
    refine ⟨by simpa using h1.2, ?_⟩
    obtain ⟨hne, hall⟩ := (requiredPrintable_ok_iff p).mp hraw
    rw [List.all_eq_true] at hall ⊢
    intro c hcs
    by_cases hc : c = '/'
    · subst hc; decide
    · exact hall c ((mem_splitOn_iff '/' c p hc).mpr ⟨seg, h1.1, hcs⟩)

/-! ### Claim theorems -/

/-- C1: region membership is asymmetric between the rings: an accepted
infrastructure path has its region in the table entry of the provider
segment itself, while a platform path only needs the region to occur in
some provider's list — and, other field checks passing, any such region
is accepted; `platform/production/checkout/us-east-1/api/token` validates
while `platform/production/checkout/nowhere/api/token` fails with a
region error. -/
theorem c1_region_membership_asymmetry :
    (∀ (parts : List (List Char)) (p0 p2 rs : _),
        parts.get? 0 = some p0 → parts.get? 2 = some p2 →
        lookupRegions p0 = some rs →
        validateInfra parts = some (.ok ()) → rs.contains p2 = true) ∧
    (∀ (parts : List (List Char)) (p2 : List Char),
        parts.get? 2 = some p2 →
        validatePlatform parts = some (.ok ()) →
        cloudProviderRegions.any (fun e => e.2.contains p2) = true) ∧
    (∀ (parts : List (List Char)) (p0 p1 p2 p3 : List Char),
        5 ≤ parts.length → parts.get? 0 = some p0 → parts.get? 1 = some p1 →
        parts.get? 2 = some p2 → parts.get? 3 = some p3 →
        platformQualityLevels.contains p0 = true →
        requiredPrintable p1 = .ok () → requiredPrintable p3 = .ok () →
        cloudProviderRegions.any (fun e => e.2.contains p2) = true →
        validatePlatform parts = some (.ok ())) ∧
    Validate "platform/production/checkout/us-east-1/api/token".data =
      some (.ok ()) ∧
    Validate "platform/production/checkout/nowhere/api/token".data =
      some (.error (.platformRegion "nowhere".data)) := by
  refine ⟨?_, ?_, ?_, rfl, rfl⟩
  · intro parts p0 p2 rs hp0 hp2 hrs h
    obtain ⟨-, q0, q1, q2, rs', hq0, hq1, hq2, hrs', -, hcont⟩ :=
      (validateInfra_ok_iff parts).mp h
    rw [hp0] at hq0
    rw [hp2] at hq2
    cases hq0
    cases hq2
    rw [hrs] at hrs'
    cases hrs'
    exact hcont
  · intro parts p2 hp2 h
    obtain ⟨-, q0, q1, q2, q3, hq0, hq1, hq2, hq3, -, -, hreg, -⟩ :=
      (validatePlatform_ok_iff parts).mp h
    rw [hp2] at hq2
    cases hq2
    exact hreg
  · intro parts p0 p1 p2 p3 hlen hp0 hp1 hp2 hp3 hqual hreq1 hreq3 hreg
    exact (validatePlatform_ok_iff parts).mpr
      ⟨hlen, p0, p1, p2, p3, hp0, hp1, hp2, hp3, hqual, hreq1, hreg, hreq3⟩

/-- Witness for C1: the infrastructure direction at a concrete accepted
path tail and the platform direction at a concrete region. -/
theorem c1_region_membership_asymmetry_witness :
    (((lookupRegions "aws".data).getD []).contains "us-east-1".data = true) ∧
    validatePlatform
      (["production", "checkout", "us-east-1", "api", "token"].map String.data) =
      some (.ok ()) := by
  constructor
  · exact c1_region_membership_asymmetry.1
      (["aws", "acme-prod", "us-east-1", "billing"].map String.data)
      "aws".data "us-east-1".data ((lookupRegions "aws".data).getD [])
      rfl rfl rfl rfl
  · exact c1_region_membership_asymmetry.2.2.1
      (["production", "checkout", "us-east-1", "api", "token"].map String.data)
      "production".data "checkout".data "us-east-1".data "api".data
      (by simp) rfl rfl rfl rfl rfl rfl rfl rfl

/-- C2: `Clean` is idempotent and the accept/reject outcome of `Validate`
is invariant under pre-normalizing the raw path with `Clean`. -/
theorem c2_validate_clean_invariant (p : List Char) :
    Clean (Clean p) = Clean p ∧
    isOkOut (Validate (Clean p)) = isOkOut (Validate p) :=
  ⟨clean_idem p, validate_clean_isOk p⟩

/-- C3: unpacking a packed SecretValue succeeds and reconstructs the
value, for every value the marshaller accepts (arbitrary binary bodies
included; the size bounds reflect Go's 2^23 length-parsing guard). -/
theorem c3_unpack_pack_roundtrip (v : SecretValue) (b : List Nat)
    (hty : v.ty.length < 2 ^ 23) (hbody : v.body.length < 2 ^ 23)
    (h : Pack v = some b) : Unpack b = some v := by
  have := unpack_pack_core v [] b hty hbody h
  simpa using this

/-- Witness for C3: a concrete value whose body holds bytes that would
corrupt a naive text encoding. -/
theorem c3_unpack_pack_roundtrip_witness :
    Pack ⟨[103, 101, 110], [0, 255, 10, 128]⟩ =
      some ((Pack ⟨[103, 101, 110], [0, 255, 10, 128]⟩).getD []) ∧
    Unpack ((Pack ⟨[103, 101, 110], [0, 255, 10, 128]⟩).getD []) =
      some ⟨[103, 101, 110], [0, 255, 10, 128]⟩ :=
  ⟨rfl, c3_unpack_pack_roundtrip ⟨[103, 101, 110], [0, 255, 10, 128]⟩ _
    (by decide) (by decide) rfl⟩

/-- C4: `Validate` reports (and never panics on) a malformed raw path —
empty input, any non-printable-ASCII character, or fewer than two
segments after normalization — and does so with the syntax errors that
precede every ring-specific check. -/
theorem c4_malformed_path_errors (p : List Char) :
    (p = [] → Validate p = some (.error (.pathSyntax .blank))) ∧
    (p ≠ [] → ¬ p.all printableChar = true →
      Validate p = some (.error (.pathSyntax .nonPrintable))) ∧
    (requiredPrintable p = .ok () → ((Clean p).splitOn '/').length < 2 →
      Validate p = some (.error .tooFewParts)) ∧
    (((Clean p).splitOn '/').length < 2 → ∃ e, Validate p = some (.error e)) := by
  refine ⟨?_, ?_, ?_, ?_⟩
  · rintro rfl
    rfl
  · intro h1 h2
    have hr : requiredPrintable p = .error .nonPrintable := by
      unfold requiredPrintable
      rw [if_neg h1, if_neg h2]
    unfold Validate
    rw [hr]
  · intro hraw hlen
    unfold Validate
    rw [hraw]
    dsimp only
    rw [if_pos hlen]
  · intro hlen
    cases hr : requiredPrintable p with
    | error e =>
      refine ⟨.pathSyntax e, ?_⟩
      unfold Validate
      rw [hr]
    | ok u =>
      cases u
      refine ⟨.tooFewParts, ?_⟩
      unfold Validate
      rw [hr]
      dsimp only
      rw [if_pos hlen]

/-- Witness for C4: the three malformed shapes at concrete inputs. -/
theorem c4_malformed_path_errors_witness :
    Validate [] = some (.error (.pathSyntax .blank)) ∧
    Validate ['\t', 'a'] = some (.error (.pathSyntax .nonPrintable)) ∧
    Validate "x".data = some (.error .tooFewParts) :=
  ⟨(c4_malformed_path_errors []).1 rfl,
   (c4_malformed_path_errors ['\t', 'a']).2.1 (by simp) (by decide),
   (c4_malformed_path_errors "x".data).2.2.1 rfl (by decide)⟩

/-- C5: an accepted artifact-ring path has at least two segments after
the ring selector and a non-empty printable-ASCII artifact type segment
(the first one after the selector); with fewer than two segments after
the selector, `Validate` fails. -/
theorem c5_artifact_grammar (p : List Char)
    (hring : ((Clean p).splitOn '/').get? 0 = some "artifact".data) :
    (Validate p = some (.ok ()) →
      2 ≤ (((Clean p).splitOn '/').drop 1).length ∧
      ∃ t, (((Clean p).splitOn '/').drop 1).get? 0 = some t ∧ t ≠ [] ∧
        t.all printableChar = true) ∧
    ((((Clean p).splitOn '/').drop 1).length < 2 →
      ∃ e, Validate p = some (.error e)) := by
  constructor
  · intro h
    obtain ⟨hraw, hlen2, ring, f, hring', hf, hok⟩ := validate_ok_decomp p h
    rw [hring] at hring'
    cases hring'
    rw [show ringValidator "artifact".data = some validateArtifact from rfl] at hf
    cases hf
    obtain ⟨hlen, -⟩ := (validateArtifact_ok_iff _).mp hok
    obtain ⟨hsegs, hprops⟩ := validate_ok_segs p h
    refine ⟨hlen, ?_⟩
    have h0 : 0 < (((Clean p).splitOn '/').drop 1).length := by omega
    obtain ⟨t, ht⟩ : ∃ t, (((Clean p).splitOn '/').drop 1).get? 0 = some t :=
      ⟨_, List.get?_eq_get h0⟩
    have hmem : t ∈ (Clean p).splitOn '/' :=
      List.mem_of_mem_drop (List.get?_mem ht)
    rw [hsegs] at hmem
    exact ⟨t, ht, (hprops t hmem).1, (hprops t hmem).2⟩
  · intro hlen
    by_cases hraw : requiredPrintable p = .ok ()
    · by_cases hl2 : ((Clean p).splitOn '/').length < 2
      · refine ⟨.tooFewParts, ?_⟩
        unfold Validate
        rw [hraw]
        dsimp only
        rw [if_pos hl2]
      · refine ⟨.artifactCount, ?_⟩
        unfold Validate
        rw [hraw]
        dsimp only
        rw [if_neg hl2, hring]
        show validateArtifact (((Clean p).splitOn '/').drop 1) = _
        rw [validateArtifact, if_pos hlen]
    · cases hr : requiredPrintable p with
      | error e =>
        refine ⟨.pathSyntax e, ?_⟩
        unfold Validate
        rw [hr]
      | ok u => exact absurd (by cases u; exact hr) hraw

/-- Witness for C5: both directions at `artifact/docker/web` and the
failing count at `artifact/docker`. -/
theorem c5_artifact_grammar_witness :
    (2 ≤ (((Clean "artifact/docker/web".data).splitOn '/').drop 1).length ∧
      ∃ t, (((Clean "artifact/docker/web".data).splitOn '/').drop 1).get? 0 = some t ∧
        t ≠ [] ∧ t.all printableChar = true) ∧
    (∃ e, Validate "artifact/docker".data = some (.error e)) :=
  ⟨(c5_artifact_grammar "artifact/docker/web".data (by decide)).1 rfl,
   (c5_artifact_grammar "artifact/docker".data (by decide)).2 (by decide)⟩

/-- C6: an accepted product-ring tail has at least three segments, a
non-empty printable name and a semver-parsable version (case-insensitive,
optional leading `v`); `product/payments/v2.3.1/key` validates and
`product/payments/not-a-version/key` fails with a semver error. -/
theorem c6_product_grammar :
    (∀ parts : List (List Char),
      validateProduct parts = some (.ok ()) ↔
        3 ≤ parts.length ∧
        ∃ p0 p1, parts.get? 0 = some p0 ∧ parts.get? 1 = some p1 ∧
          requiredPrintable p0 = .ok () ∧ validateSemVer p1 = .ok ()) ∧
    Validate "product/payments/v2.3.1/key".data = some (.ok ()) ∧
    ∃ e, Validate "product/payments/not-a-version/key".data =
      some (.error (.productVersion "payments".data "not-a-version".data e)) :=
  ⟨validateProduct_ok_iff, rfl, ⟨.notThreeParts, rfl⟩⟩

/-- Witness for C6: the acceptance characterization applied at the
example tail. -/
theorem c6_product_grammar_witness :
    validateProduct (["payments", "v2.3.1", "key"].map String.data) =
      some (.ok ()) :=
  (c6_product_grammar.1 _).mpr
    ⟨by decide, "payments".data, "v2.3.1".data, rfl, rfl, rfl, rfl⟩

/-- C7: an accepted app-ring tail has at least six segments, a stage in
{production, staging, qa, dev}, non-empty platform and product names, a
semver-parsable product version and a non-empty component; the stage is
checked first; `app/staging/checkout/payments/v1.0.0/worker/key`
validates. -/
theorem c7_application_grammar :
    (∀ parts : List (List Char),
      validateApplication parts = some (.ok ()) ↔
        6 ≤ parts.length ∧
        ∃ p0 p1 p2 p3 p4,
          parts.get? 0 = some p0 ∧ parts.get? 1 = some p1 ∧
          parts.get? 2 = some p2 ∧ parts.get? 3 = some p3 ∧
          parts.get? 4 = some p4 ∧
          platformQualityLevels.contains p0 = true ∧
          requiredPrintable p1 = .ok () ∧ requiredPrintable p2 = .ok () ∧
          validateSemVer p3 = .ok () ∧ requiredPrintable p4 = .ok ()) ∧
    (∀ (parts : List (List Char)) (p0 : List Char),
      6 ≤ parts.length → parts.get? 0 = some p0 →
      ¬ platformQualityLevels.contains p0 = true →
      validateApplication parts = some (.error (.appQuality p0))) ∧
    Validate "app/staging/checkout/payments/v1.0.0/worker/key".data =
      some (.ok ()) := by
  refine ⟨validateApplication_ok_iff, ?_, rfl⟩
  intro parts p0 hlen hp0 hq
  simp only [validateApplication, if_neg (show ¬ parts.length < 6 by omega), hp0]
  rw [if_pos hq]

/-- Witness for C7: the acceptance characterization applied at the
example tail. -/
theorem c7_application_grammar_witness :
    validateApplication
      (["staging", "checkout", "payments", "v1.0.0", "worker", "key"].map
        String.data) = some (.ok ()) :=
  (c7_application_grammar.1 _).mpr
    ⟨by decide, "staging".data, "checkout".data, "payments".data,
     "v1.0.0".data, "worker".data, rfl, rfl, rfl, rfl, rfl, by decide, rfl,
     rfl, rfl, rfl⟩

/-- C8: `Validate` and every ring validator return a value on every
input: no indexing is performed out of range (an out-of-range `parts[i]`
would surface as `none` in this model). -/
theorem c8_no_out_of_range_access :
    (∀ s : List Char, (Validate s).isSome = true) ∧
    (∀ parts : List (List Char),
      (validateMeta parts).isSome = true ∧
      (validateInfra parts).isSome = true ∧
      (validatePlatform parts).isSome = true ∧
      (validateProduct parts).isSome = true ∧
      (validateApplication parts).isSome = true ∧
      (validateArtifact parts).isSome = true) :=
  ⟨validate_isSome, fun parts =>
    ⟨validateMeta_isSome parts, validateInfra_isSome parts,
     validatePlatform_isSome parts, validateProduct_isSome parts,
     validateApplication_isSome parts, validateArtifact_isSome parts⟩⟩

/-- C9: semantic-version checking tolerates surrounding white space and
an upper-case leading `V`, because the version is lower-cased and trimmed
before the `v` prefix is stripped; concrete product and app paths with
`" 1.0.0 "` and `"V2.3.1"` version segments validate. -/
theorem c9_semver_leniency :
    (∀ a b v : List Char, a.all isSpaceGo = true → b.all isSpaceGo = true →
      validateSemVer (a ++ v ++ b) = validateSemVer v) ∧
    (∀ v : List Char, validateSemVer ('V' :: v) = validateSemVer ('v' :: v)) ∧
    validateSemVer " 1.0.0 ".data = .ok () ∧
    validateSemVer "V2.3.1".data = .ok () ∧
    Validate "product/payments/ 1.0.0 /key".data = some (.ok ()) ∧
    Validate "app/staging/checkout/payments/V2.3.1/worker/key".data =
      some (.ok ()) :=
  ⟨validateSemVer_surrounding_space, validateSemVer_leading_v_case,
   rfl, rfl, rfl, rfl⟩

/-- Witness for C9: white-space tolerance applied at a concrete version. -/
theorem c9_semver_leniency_witness :
    validateSemVer ([' '] ++ "1.0.0".data ++ [' ']) =
      validateSemVer "1.0.0".data :=
  c9_semver_leniency.1 [' '] [' '] "1.0.0".data (by decide) (by decide)

/-- C10: `Unpack` is prefix-tolerant: any byte suffix appended to a
packed value is ignored and the value is still recovered; conversely
`Unpack` can only fail on inputs of which no packed value is a prefix. -/
theorem c10_prefix_tolerant_unpack :
    (∀ (v : SecretValue) (b s : List Nat),
      v.ty.length < 2 ^ 23 → v.body.length < 2 ^ 23 →
      Pack v = some b → Unpack (b ++ s) = some v) ∧
    (∀ b : List Nat, Unpack b = none →
      ¬ ∃ (v : SecretValue) (q s : List Nat),
        v.ty.length < 2 ^ 23 ∧ v.body.length < 2 ^ 23 ∧
        Pack v = some q ∧ b = q ++ s) := by
  constructor
  · intro v b s h1 h2 h3
    exact unpack_pack_core v s b h1 h2 h3
  · rintro b hb ⟨v, q, s, h1, h2, h3, rfl⟩
    rw [unpack_pack_core v s q h1 h2 h3] at hb
    simp at hb

/-- Witness for C10: trailing junk after a concrete packed value. -/
theorem c10_prefix_tolerant_unpack_witness :
    Unpack ((Pack ⟨[107], [1, 2, 3]⟩).getD [] ++ [255]) =
      some ⟨[107], [1, 2, 3]⟩ :=
  c10_prefix_tolerant_unpack.1 ⟨[107], [1, 2, 3]⟩ _ [255]
    (by decide) (by decide) rfl

end Harp
